import Mathlib

/-!
Shallow embedding of the release-rotation subsystem of the fabfile repository
(`src/fabfile/lib.py`): the functions `roll_site_forward` and `prune_directory`.

Both functions act on a remote directory purely through shell pipelines:

* `roll_site_forward(deployment_dir)` runs
  `ls -1 DIR | grep 2 | tail -n 1` to pick the new live target, then
  (inside `DIR`, with `warn_only` around the unlink) `unlink live` followed by
  `ln -s NEWEST live`.
* `prune_directory(directory, pattern, max_entries)` runs
  `ls -1r DIR | grep PATTERN | tail -n +MAX | xargs rm -rf --preserve-root`.

The embedding models a directory as the list of its entry names.  Entry names
are modelled as atomic tokens (no newlines or shell metacharacters), which is
the only regime in which the shell pipelines are well defined at all.  Each
pipeline stage is embedded separately:

* `ls -1` sorts names ascending in byte order (C locale); on the ASCII names
  involved this is exactly the lexicographic order on the code-point lists,
  `nameLe` below, which agrees with Mathlib's `String` order.
* `grep PAT` keeps the lines containing `PAT` as a substring (the patterns the
  repository passes, `2` and `2023`, contain no regex metacharacters).
* `tail -n 1` yields the last line, or empty output (captured as `""`) when
  the input is empty.
* `tail -n +K` (GNU semantics) outputs from line `K` onward; `+0` behaves
  like `+1`.
-/

namespace Fabfile

/-- Byte-wise lexicographic order on entry names: the order `ls` uses in the
C locale, stated on the code-point lists of the strings.  `nameLe_iff` shows
it agrees with the `String` linear order. -/
def nameLe (a b : String) : Prop := a.data ≤ b.data

instance nameLe.instDecidableRel : DecidableRel nameLe :=
  fun a b => inferInstanceAs (Decidable (a.data ≤ b.data))

/-- Output lines of `grep pat`: the input lines that contain `pat` as a
substring (infix of the character list). -/
def grepFilter (pat : String) (lines : List String) : List String :=
  lines.filter (fun n => decide (pat.data <:+: n.data))

/-- Output of `ls -1` on a directory with the given entry names: the names
sorted ascending. -/
def lsAsc (l : List String) : List String := List.insertionSort nameLe l

/-- Output of `ls -1r`: the names sorted descending (reverse sort order). -/
def lsDesc (l : List String) : List String := (lsAsc l).reverse

/-- Output of `tail -n 1`, as captured by `env.run`: the last line, or the
empty string when the input has no lines. -/
def tailLast (lines : List String) : String := lines.getLastD ""

/-- Output of GNU `tail -n +k`: the lines from line `k` onward ( `+0` behaves
like `+1` ). -/
def tailFromLine (k : Nat) (lines : List String) : List String := lines.drop (k - 1)

/-- A deployment directory: the release entries (and any other non-live
entries) by name, plus the `live` symlink with its target when present. -/
structure DeployDir where
  entries : List String
  live : Option String
deriving DecidableEq, Repr

/-- The name the live link contributes to the listing: `live` when the link
exists, nothing otherwise. -/
def liveNames : Option String → List String
  | some _ => ["live"]
  | none => []

/-- The entry names `ls` sees in a deployment directory: the non-live entries
plus the name `live` when the live link exists. -/
def dirNames (d : DeployDir) : List String :=
  d.entries ++ liveNames d.live

/-- `ls -1 deployment_dir` inside `roll_site_forward`. -/
def lsSorted (d : DeployDir) : List String := lsAsc (dirNames d)

/-- The candidate list `ls -1 DIR | grep 2` of `roll_site_forward`
(`lib.py:263`): entries whose name contains the character `2`. -/
def selectionCandidates (d : DeployDir) : List String :=
  grepFilter "2" (lsSorted d)

/-- `newest_deployment` in `roll_site_forward`: the captured output of
`ls -1 DIR | grep 2 | tail -n 1`. -/
def newestDeployment (d : DeployDir) : String := tailLast (selectionCandidates d)

/-- Target of the link created by `ln -s %s live`.  When `newest_deployment`
is empty the command degenerates (by shell word splitting) to `ln -s live`,
which creates a self-referential link `live -> live`. -/
def liveTarget (newest : String) : String := if newest = "" then "live" else newest

/-- The deployment directory after a successful `roll_site_forward`: entries
untouched, `live` now pointing at the selected target. -/
def advance (d : DeployDir) : DeployDir :=
  { d with live := some (liveTarget (newestDeployment d)) }

/-- Effect of `unlink live` on the directory.  `unlinkOk` says whether an
unlink of an existing link would succeed (false models a permission or I/O
failure); when the link is absent the command fails with "no such file" and
changes nothing.  Either failure only warns (`warn_only=True`). -/
def unlinkLive (d : DeployDir) (unlinkOk : Bool) : DeployDir :=
  if unlinkOk then { d with live := none } else d

/-- `roll_site_forward(deployment_dir)` (`lib.py:258-270`), with unlink-fault
injection.  The listing pipeline always exits 0 (its status is `tail`'s), so
the selection step never aborts.  The `unlink live` runs under
`warn_only=True`, so any unlink failure is only warned about.  The subsequent
`ln -s NEWEST live` is not under `warn_only`: it aborts the run
(`Except.error`) exactly when a `live` entry still exists. -/
def rollSiteForwardFx (d : DeployDir) (unlinkOk : Bool) :
    Except Unit (DeployDir × String) :=
  match (unlinkLive d unlinkOk).live with
  | some _ => Except.error ()
  | none =>
      Except.ok
        ({ unlinkLive d unlinkOk with live := some (liveTarget (newestDeployment d)) },
          newestDeployment d)

/-- The list of names piped into `xargs rm -rf` by `prune_directory`
(`lib.py:301-302`): `ls -1r DIR | grep PATTERN | tail -n +MAX_ENTRIES`. -/
def pruneRemoved (entries : List String) (pat : String) (maxEntries : Nat) :
    List String :=
  tailFromLine maxEntries (grepFilter pat (lsDesc entries))

/-- The directory contents after `prune_directory(directory, pattern,
max_entries)`: every entry whose name was piped into `rm -rf` is gone. -/
def prune_directory (entries : List String) (pat : String) (maxEntries : Nat) :
    List String :=
  entries.filter (fun n => decide (n ∉ pruneRemoved entries pat maxEntries))

/-- The timestamp naming convention `YYYYMMDD_HHMMSS` used for release
directories (spec section 3): eight digits, an underscore, six digits. -/
def isTimestampName (s : String) : Bool :=
  match s.data with
  | [d1, d2, d3, d4, d5, d6, d7, d8, u, t1, t2, t3, t4, t5, t6] =>
      (u == '_') && [d1, d2, d3, d4, d5, d6, d7, d8, t1, t2, t3, t4, t5, t6].all Char.isDigit
  | _ => false

theorem nameLe_iff {a b : String} : nameLe a b ↔ a ≤ b := by
  rw [String.le_iff_toList_le]
  exact Iff.rfl

instance : IsTrans String nameLe :=
  ⟨fun _ _ _ h1 h2 => nameLe_iff.mpr (le_trans (nameLe_iff.mp h1) (nameLe_iff.mp h2))⟩

instance : IsTotal String nameLe :=
  ⟨fun a b => (le_total a b).imp nameLe_iff.mpr nameLe_iff.mpr⟩

instance : IsAntisymm String nameLe :=
  ⟨fun _ _ h1 h2 => le_antisymm (nameLe_iff.mp h1) (nameLe_iff.mp h2)⟩

theorem nameLe_refl (a : String) : nameLe a a := nameLe_iff.mpr le_rfl

theorem nameLe_trans {a b c : String} (h1 : nameLe a b) (h2 : nameLe b c) :
    nameLe a c :=
  nameLe_iff.mpr (le_trans (nameLe_iff.mp h1) (nameLe_iff.mp h2))

/-- A singleton list is an infix exactly when its element occurs;
specialises grep with a one-character pattern to character membership. -/
theorem singleton_isInfix_iff {c : Char} {l : List Char} : [c] <:+: l ↔ c ∈ l := by
  constructor
  · intro h
    exact h.subset (List.mem_singleton_self c)
  · intro h
    obtain ⟨s, t, rfl⟩ := List.append_of_mem h
    exact ⟨s, t, by simp⟩

/-- The default-valued last element of a nonempty list is a member. -/
theorem getLastD_mem : ∀ (l : List String), l ≠ [] → ∀ d : String, l.getLastD d ∈ l
  | [], h, _ => absurd rfl h
  | [a], _, _ => by simp [List.getLastD]
  | a :: b :: t, _, d => by
    have hmem := getLastD_mem (b :: t) (by simp) a
    have hcons : (a :: b :: t).getLastD d = (b :: t).getLastD a := by
      simp [List.getLastD]
    rw [hcons]
    exact List.mem_cons_of_mem a hmem

/-- In a `nameLe`-sorted list every member is below the last element. -/
theorem sorted_nameLe_getLastD :
    ∀ (l : List String) (d : String), l.Sorted nameLe →
      ∀ x ∈ l, nameLe x (l.getLastD d)
  | [], _, _, _, hx => absurd hx (List.not_mem_nil _)
  | [a], _, _, x, hx => by
    simp only [List.mem_singleton] at hx
    subst hx
    simpa [List.getLastD] using nameLe_refl x
  | a :: b :: t, d, hs, x, hx => by
    have hcons : (a :: b :: t).getLastD d = (b :: t).getLastD a := by
      simp [List.getLastD]
    rw [hcons]
    rcases List.mem_cons.mp hx with hx1 | hx2
    · rw [hx1]
      have hab : nameLe a b := List.rel_of_sorted_cons hs b (List.mem_cons_self b t)
      have hbl : nameLe b ((b :: t).getLastD a) :=
        sorted_nameLe_getLastD (b :: t) a hs.of_cons b (List.mem_cons_self b t)
      exact nameLe_trans hab hbl
    · exact sorted_nameLe_getLastD (b :: t) a hs.of_cons x hx2

/-- Filtering commutes with the model's sort: both sides are sorted listings
of the same multiset. -/
theorem filter_lsAsc (p : String → Bool) (l : List String) :
    (lsAsc l).filter p = lsAsc (l.filter p) := by
  exact List.eq_of_perm_of_sorted (r := nameLe)
    (((List.perm_insertionSort nameLe l).filter p).trans
      (List.perm_insertionSort nameLe (l.filter p)).symm)
    ((List.sorted_insertionSort nameLe l).filter p)
    (List.sorted_insertionSort nameLe (l.filter p))

/-- The name `live` never survives the `grep 2` of `roll_site_forward`, so
the candidate list only depends on the non-live entries. -/
theorem selectionCandidates_eq (d : DeployDir) :
    selectionCandidates d = lsAsc (grepFilter "2" d.entries) := by
  have h1 : selectionCandidates d =
      (lsAsc (dirNames d)).filter (fun n => decide ("2".data <:+: n.data)) := rfl
  rw [h1, filter_lsAsc, dirNames, List.filter_append]
  have h2 : List.filter (fun n => decide ("2".data <:+: n.data)) (liveNames d.live) = [] := by
    cases d.live <;> rfl
  rw [h2, List.append_nil]
  rfl

/-- The selected target is insensitive to the state of the live link. -/
theorem newestDeployment_eq (d : DeployDir) :
    newestDeployment d = tailLast (lsAsc (grepFilter "2" d.entries)) := by
  rw [newestDeployment, selectionCandidates_eq]

/-- With a working unlink, `roll_site_forward` always succeeds and produces
the `advance`d directory together with the selected name. -/
theorem rollSiteForwardFx_ok (d : DeployDir) :
    rollSiteForwardFx d true = Except.ok (advance d, newestDeployment d) := rfl

/-- The selected target does not change when the live link is rewritten:
the name `live` never contains the character `2`, so re-running the
selection pipeline after `advance` sees the same candidates. -/
theorem newest_advance (d : DeployDir) :
    newestDeployment (advance d) = newestDeployment d := by
  rw [newestDeployment_eq (advance d), newestDeployment_eq d]
  rfl

/-- Advancing twice without new releases is the same as advancing once. -/
theorem advance_advance (d : DeployDir) : advance (advance d) = advance d := by
  have h1 : advance (advance d) =
      DeployDir.mk d.entries (some (liveTarget (newestDeployment (advance d)))) := rfl
  rw [h1, newest_advance]
  rfl

/-- C1 is violated by the code: with exactly the matching directories
`20230101_000000`, `20230102_000000`, `20230103_000000` and `max_entries = 2`,
`prune_directory` pipes `20230102_000000` and `20230101_000000` into
`rm -rf` and retains only `20230103_000000`.  `tail -n +2` starts printing
at line 2 of the descending listing, so only `max_entries - 1` entries
survive, one fewer than the claim (and the function's own docstring)
states. -/
theorem claim_C1_prune_eval :
    pruneRemoved ["20230101_000000", "20230102_000000", "20230103_000000"] "2023" 2 =
      ["20230102_000000", "20230101_000000"] ∧
    prune_directory ["20230101_000000", "20230102_000000", "20230103_000000"] "2023" 2 =
      ["20230103_000000"] := by
  decide

/-- C2 as stated is false: `19990101_000000` follows the timestamp
convention, yet with it as the only release `roll_site_forward` selects
nothing (`grep 2` drops every name without a `2`) and links `live` to
itself instead of to the lexicographically-maximal matching entry. -/
theorem claim_C2_counterexample :
    isTimestampName "19990101_000000" = true ∧
    (advance (DeployDir.mk ["19990101_000000"] none)).live = some "live" ∧
    (advance (DeployDir.mk ["19990101_000000"] none)).live ≠ some "19990101_000000" := by
  decide

/-- C2 (amended): for every non-empty set of release names following the
timestamp convention in which every name contains the character `2` (true
of all timestamps dated 2000-2999), `advance` selects the
lexicographically-maximal name and links `live` to it. -/
theorem claim_C2_amended_max (d : DeployDir) (hne : d.entries ≠ [])
    (h : ∀ n ∈ d.entries, isTimestampName n = true ∧ '2' ∈ n.data) :
    newestDeployment d ∈ d.entries ∧
    (∀ n ∈ d.entries, nameLe n (newestDeployment d)) ∧
    (advance d).live = some (newestDeployment d) := by
  have hfilter : grepFilter "2" d.entries = d.entries := by
    apply List.filter_eq_self.mpr
    intro n hn
    have hinf : ("2".data : List Char) <:+: n.data :=
      singleton_isInfix_iff.mpr (h n hn).2
    exact decide_eq_true hinf
  have hc : selectionCandidates d = lsAsc d.entries := by
    rw [selectionCandidates_eq, hfilter]
  have hLsorted : (lsAsc d.entries).Sorted nameLe :=
    List.sorted_insertionSort nameLe d.entries
  have hperm : List.Perm (lsAsc d.entries) d.entries :=
    List.perm_insertionSort nameLe d.entries
  have hLne : lsAsc d.entries ≠ [] := by
    intro h0
    have hp2 := hperm
    rw [h0] at hp2
    exact hne hp2.symm.eq_nil
  have hnewest : newestDeployment d = (lsAsc d.entries).getLastD "" := by
    rw [newestDeployment, hc]
    rfl
  have hmem : newestDeployment d ∈ d.entries := by
    rw [hnewest]
    exact hperm.mem_iff.mp (getLastD_mem _ hLne "")
  refine ⟨hmem, ?_, ?_⟩
  · intro n hn
    rw [hnewest]
    exact sorted_nameLe_getLastD _ "" hLsorted n (hperm.mem_iff.mpr hn)
  · have hts : isTimestampName (newestDeployment d) = true := (h _ hmem).1
    have hne2 : newestDeployment d ≠ "" := by
      intro h0
      rw [h0] at hts
      exact absurd hts (by decide)
    have htgt : liveTarget (newestDeployment d) = newestDeployment d := by
      unfold liveTarget
      rw [if_neg hne2]
    show some (liveTarget (newestDeployment d)) = some (newestDeployment d)
    rw [htgt]

/-- Witness for C2 (amended) at a concrete two-release directory. -/
theorem claim_C2_amended_max_witness :
    newestDeployment (DeployDir.mk ["20230103_000000", "20230101_000000"] none) ∈
      (DeployDir.mk ["20230103_000000", "20230101_000000"] none).entries ∧
    (advance (DeployDir.mk ["20230103_000000", "20230101_000000"] none)).live =
      some (newestDeployment (DeployDir.mk ["20230103_000000", "20230101_000000"] none)) := by
  have h := claim_C2_amended_max (DeployDir.mk ["20230103_000000", "20230101_000000"] none)
    (by decide) (by decide)
  exact ⟨h.1, h.2.2⟩

/-- C3 is violated by the code: on an empty deployment directory the
selection pipeline exits 0 with empty output, the swallowed `unlink live`
failure is ignored, and `ln -s  live` (empty target, so effectively
`ln -s live`) succeeds, creating a self-referential `live -> live` link.
The operation succeeds instead of failing with `NotFoundError`. -/
theorem claim_C3_empty_eval :
    rollSiteForwardFx (DeployDir.mk [] none) true =
      Except.ok (DeployDir.mk [] (some "live"), "") := rfl

/-- C4: `prune_directory` never removes an entry whose name does not match
the pattern: such an entry is never piped into `rm -rf` (the `grep` stage
drops it) and is still present afterwards. -/
theorem claim_C4_nonmatching_preserved (entries : List String) (pat : String)
    (maxEntries : Nat) (n : String) (hmem : n ∈ entries)
    (hno : ¬ pat.data <:+: n.data) :
    n ∈ prune_directory entries pat maxEntries ∧
    n ∉ pruneRemoved entries pat maxEntries := by
  have hnr : n ∉ pruneRemoved entries pat maxEntries := by
    intro hr
    have hr2 : n ∈ (grepFilter pat (lsDesc entries)).drop (maxEntries - 1) := hr
    have hg : n ∈ (lsDesc entries).filter (fun m => decide (pat.data <:+: m.data)) :=
      (List.drop_sublist _ _).subset hr2
    exact hno (of_decide_eq_true (List.mem_filter.mp hg).2)
  refine ⟨?_, hnr⟩
  have : n ∈ entries.filter
      (fun m => decide (m ∉ pruneRemoved entries pat maxEntries)) :=
    List.mem_filter.mpr ⟨hmem, decide_eq_true hnr⟩
  exact this

/-- Witness for C4: the `live` entry survives a prune that removes every
matching entry. -/
theorem claim_C4_witness :
    "live" ∈ prune_directory ["live", "20230101_000000", "20230102_000000"] "2023" 1 ∧
    "live" ∉ pruneRemoved ["live", "20230101_000000", "20230102_000000"] "2023" 1 :=
  claim_C4_nonmatching_preserved _ _ _ _ (by decide) (by decide)

/-- C5: when the unlink of `live` fails because the link does not exist,
the failure is swallowed (warn-only) and the operation still succeeds;
when the unlink of an existing link fails for any other reason, `live`
still exists, the following `ln -s NEWEST live` fails, and — since the
`ln` is not under `warn_only` — the operation as a whole fails. -/
theorem claim_C5_unlink_faults (d : DeployDir) :
    (d.live = none → rollSiteForwardFx d false =
      Except.ok (advance d, newestDeployment d)) ∧
    (∀ t, d.live = some t → rollSiteForwardFx d false = Except.error ()) := by
  constructor
  · intro h
    simp [rollSiteForwardFx, unlinkLive, h, advance]
  · intro t h
    simp [rollSiteForwardFx, unlinkLive, h]

/-- Witness for C5: a missing live link is tolerated, a stuck existing one
fails the operation. -/
theorem claim_C5_witness :
    rollSiteForwardFx (DeployDir.mk ["20230101_000000"] none) false =
      Except.ok (advance (DeployDir.mk ["20230101_000000"] none),
        newestDeployment (DeployDir.mk ["20230101_000000"] none)) ∧
    rollSiteForwardFx (DeployDir.mk ["20230101_000000"] (some "20230101_000000")) false =
      Except.error () :=
  ⟨(claim_C5_unlink_faults (DeployDir.mk ["20230101_000000"] none)).1 rfl,
   (claim_C5_unlink_faults (DeployDir.mk ["20230101_000000"] (some "20230101_000000"))).2
     "20230101_000000" rfl⟩

/-- C6: when strictly fewer entries match the pattern than `max_entries`,
`prune_directory` removes nothing: `tail -n +max_entries` outputs no line of
the short matching listing, so nothing is piped into `rm -rf` and the
directory is unchanged. -/
theorem claim_C6_under_threshold (entries : List String) (pat : String)
    (maxEntries : Nat) (h : (grepFilter pat entries).length < maxEntries) :
    prune_directory entries pat maxEntries = entries := by
  have h1 : grepFilter pat (lsDesc entries) = (grepFilter pat (lsAsc entries)).reverse := by
    unfold lsDesc grepFilter
    rw [List.filter_reverse]
  have hlen : (grepFilter pat (lsDesc entries)).length = (grepFilter pat entries).length := by
    rw [h1, List.length_reverse]
    exact ((List.perm_insertionSort nameLe entries).filter _).length_eq
  have hrm : pruneRemoved entries pat maxEntries = [] := by
    show (grepFilter pat (lsDesc entries)).drop (maxEntries - 1) = []
    apply List.drop_eq_nil_of_le
    rw [hlen]
    omega
  show entries.filter (fun n => decide (n ∉ pruneRemoved entries pat maxEntries)) = entries
  rw [hrm]
  exact List.filter_eq_self.mpr (fun n _ => decide_eq_true (List.not_mem_nil n))

/-- Witness for C6: three matching entries, `max_entries = 10`, nothing is
removed. -/
theorem claim_C6_witness :
    prune_directory ["20230101_000000", "20230102_000000", "20230103_000000", "live"]
      "2023" 10 =
      ["20230101_000000", "20230102_000000", "20230103_000000", "live"] :=
  claim_C6_under_threshold _ _ _ (by decide)

/-- C7: with exactly the releases `20230101_000000`, `20230102_000000`,
`20230103_000000` and no live link, `roll_site_forward` succeeds (the
missing link only produces a swallowed unlink warning) and creates
`live -> 20230103_000000`. -/
theorem claim_C7_three_releases :
    rollSiteForwardFx
      (DeployDir.mk ["20230101_000000", "20230102_000000", "20230103_000000"] none) true =
      Except.ok
        (DeployDir.mk ["20230101_000000", "20230102_000000", "20230103_000000"]
          (some "20230103_000000"),
         "20230103_000000") := rfl

/-- C8: `advance` is idempotent: whenever it succeeds, producing state `d1`
and target `t1`, running it again on `d1` succeeds, re-links `live` to the
same target `t1`, and leaves the state at `d1`.  The freshly written `live`
entry never matches `grep 2`, so the second selection sees the same
candidates. -/
theorem claim_C8_idempotent (d d1 : DeployDir) (t1 : String)
    (h : rollSiteForwardFx d true = Except.ok (d1, t1)) :
    rollSiteForwardFx d1 true = Except.ok (d1, t1) := by
  rw [rollSiteForwardFx_ok] at h
  injection h with h2
  have hd : advance d = d1 := congrArg Prod.fst h2
  have ht : newestDeployment d = t1 := congrArg Prod.snd h2
  rw [rollSiteForwardFx_ok d1, ← hd, ← ht, advance_advance, newest_advance]

/-- Witness for C8 at a one-release directory. -/
theorem claim_C8_witness :
    rollSiteForwardFx (advance (DeployDir.mk ["20230101_000000"] none)) true =
      Except.ok (advance (DeployDir.mk ["20230101_000000"] none), "20230101_000000") :=
  claim_C8_idempotent (DeployDir.mk ["20230101_000000"] none) _ _ rfl

/-- C9: the eligibility filter of `roll_site_forward` is literally "the name
contains the character 2" (`grep 2`), not the timestamp format: any listed
name containing a `2` is a candidate, the candidate sorting last
lexicographically is the one selected, and a nonempty name without a `2`
(such as `live`) is never selected. -/
theorem claim_C9_filter_is_contains_two (d : DeployDir) (n : String) :
    (n ∈ dirNames d → '2' ∈ n.data → n ∈ selectionCandidates d) ∧
    (n ∈ selectionCandidates d → (∀ m ∈ selectionCandidates d, nameLe m n) →
      newestDeployment d = n) ∧
    (n ≠ "" → '2' ∉ n.data → newestDeployment d ≠ n) := by
  have hsorted : (selectionCandidates d).Sorted nameLe :=
    (List.sorted_insertionSort nameLe (dirNames d)).filter _
  refine ⟨?_, ?_, ?_⟩
  · intro hmem h2
    have hls : n ∈ lsSorted d := (List.mem_insertionSort nameLe).mpr hmem
    have hinf : ("2".data : List Char) <:+: n.data := singleton_isInfix_iff.mpr h2
    exact List.mem_filter.mpr ⟨hls, decide_eq_true hinf⟩
  · intro hmem hmax
    have hne : selectionCandidates d ≠ [] := List.ne_nil_of_mem hmem
    have h1 : nameLe ((selectionCandidates d).getLastD "") n :=
      hmax _ (getLastD_mem _ hne "")
    have h2 : nameLe n ((selectionCandidates d).getLastD "") :=
      sorted_nameLe_getLastD _ "" hsorted n hmem
    show (selectionCandidates d).getLastD "" = n
    exact le_antisymm (nameLe_iff.mp h1) (nameLe_iff.mp h2)
  · intro hne h2 heq
    by_cases hc : selectionCandidates d = []
    · have h0 : newestDeployment d = "" := by
        show (selectionCandidates d).getLastD "" = ""
        rw [hc]
        rfl
      exact hne (heq.symm.trans h0)
    · have hlm : newestDeployment d ∈ selectionCandidates d := getLastD_mem _ hc ""
      rw [heq] at hlm
      have hm2 : n ∈ (lsSorted d).filter (fun m => decide ("2".data <:+: m.data)) := hlm
      have hinf : (['2'] : List Char) <:+: n.data :=
        of_decide_eq_true (List.mem_filter.mp hm2).2
      exact h2 (singleton_isInfix_iff.mp hinf)

/-- Witness for C9: `v2` (not a timestamp) is selected over `alpha`; the
2-free name `alpha` is never selected. -/
theorem claim_C9_witness :
    newestDeployment (DeployDir.mk ["alpha", "v2"] none) = "v2" ∧
    newestDeployment (DeployDir.mk ["alpha", "v2"] none) ≠ "alpha" :=
  ⟨(claim_C9_filter_is_contains_two (DeployDir.mk ["alpha", "v2"] none) "v2").2.1
      (by decide) (by decide),
   (claim_C9_filter_is_contains_two (DeployDir.mk ["alpha", "v2"] none) "alpha").2.2
      (by decide) (by decide)⟩

/-- C10: `roll_site_forward` only touches the live link: whenever it
succeeds, the non-live entries of the resulting directory are exactly those
of the input (no release is deleted, renamed or modified). -/
theorem claim_C10_frame (d : DeployDir) (uOk : Bool) (r : DeployDir × String)
    (h : rollSiteForwardFx d uOk = Except.ok r) : r.1.entries = d.entries := by
  cases uOk with
  | true =>
    rw [rollSiteForwardFx_ok] at h
    injection h with h2
    rw [← h2]
    rfl
  | false =>
    cases hl : d.live with
    | none =>
      have h1 : rollSiteForwardFx d false =
          Except.ok (DeployDir.mk d.entries (some (liveTarget (newestDeployment d))),
            newestDeployment d) := by
        unfold rollSiteForwardFx unlinkLive
        rw [if_neg (by decide), hl]
      rw [h1] at h
      injection h with h2
      rw [← h2]
    | some t =>
      have h1 : rollSiteForwardFx d false = Except.error () := by
        unfold rollSiteForwardFx unlinkLive
        rw [if_neg (by decide), hl]
      rw [h1] at h
      exact Except.noConfusion h

/-- Witness for C10: a successful advance over an existing live link leaves
the single release entry in place. -/
theorem claim_C10_witness :
    (advance (DeployDir.mk ["20230105_000000"] (some "20230104_000000")),
      newestDeployment (DeployDir.mk ["20230105_000000"] (some "20230104_000000"))).1.entries =
      ["20230105_000000"] :=
  claim_C10_frame (DeployDir.mk ["20230105_000000"] (some "20230104_000000")) true
    (advance (DeployDir.mk ["20230105_000000"] (some "20230104_000000")),
      newestDeployment (DeployDir.mk ["20230105_000000"] (some "20230104_000000"))) rfl

example : isTimestampName "19990101_000000" = true := by decide
example : isTimestampName "20230103_000000" = true := by decide
example : isTimestampName "live" = false := by decide
example : newestDeployment ⟨["20230101_000000", "20230103_000000", "20230102_000000"], none⟩ =
    "20230103_000000" := by decide
example : prune_directory ["20230101_000000", "20230102_000000", "20230103_000000"] "2023" 2 =
    ["20230103_000000"] := by decide
example : rollSiteForwardFx ⟨[], none⟩ true = Except.ok (⟨[], some "live"⟩, "") := rfl

end Fabfile
